import Mathlib

/-!
Verification development for the Peninsula Health roster generator
(src/backend/src/roster_generator.py, class SimpleScheduler).

Modelling conventions:
* Python floats are modelled by `Frac`, an exact fraction type (integer
  numerator, positive natural denominator, no normalisation) whose
  operations reduce in the kernel; `Frac.toRat` interprets a fraction as
  a rational number.  All float values arising in the scheduler are
  exact small fractions, so real-number semantics is the faithful ideal.
* Dates are modelled by their day offset from the start date
  (`0, 1, 2, ...`); `start_weekday` is the weekday of the start date
  (`0` = Monday as in Python's `datetime.weekday()`), so day `d` is a
  Friday iff `(start_weekday + d) % 7 = 4`.  The `"%Y-%m-%d"` strings
  used by the source are in bijection with these offsets, and their
  chronological order matches the numeric order of offsets.
* Python dicts are modelled by insertion-ordered association lists:
  `dinsert` overwrites in place or appends, exactly like a dict write,
  and iteration order is list order, matching dict iteration order.
-/

/-- Exact fraction: numerator, positive denominator.  Models Python float
values exactly (all numeric values reached by the scheduler are small
exact fractions). -/
structure Frac where
  num : Int
  den : Nat
  den_pos : 0 < den

/-- Embed an integer as a fraction. -/
def fr (n : Int) : Frac := ⟨n, 1, Nat.one_pos⟩

def Frac.add (a b : Frac) : Frac :=
  ⟨a.num * b.den + b.num * a.den, a.den * b.den, Nat.mul_pos a.den_pos b.den_pos⟩

def Frac.sub (a b : Frac) : Frac :=
  ⟨a.num * b.den - b.num * a.den, a.den * b.den, Nat.mul_pos a.den_pos b.den_pos⟩

def Frac.mul (a b : Frac) : Frac :=
  ⟨a.num * b.num, a.den * b.den, Nat.mul_pos a.den_pos b.den_pos⟩

/-- Division.  A zero divisor raises `ZeroDivisionError` in Python; every
division performed by the scheduler is guarded to have a positive divisor,
so the zero branch is unreachable (we give it a harmless value). -/
def Frac.div (a b : Frac) : Frac :=
  if h : b.num = 0 then ⟨0, 1, Nat.one_pos⟩
  else ⟨(if b.num < 0 then -a.num else a.num) * b.den, a.den * b.num.natAbs,
        Nat.mul_pos a.den_pos (Int.natAbs_pos.mpr h)⟩

instance : Add Frac := ⟨Frac.add⟩
instance : Sub Frac := ⟨Frac.sub⟩
instance : Mul Frac := ⟨Frac.mul⟩
instance : Div Frac := ⟨Frac.div⟩
instance : LE Frac := ⟨fun a b => a.num * (b.den : Int) ≤ b.num * (a.den : Int)⟩
instance : LT Frac := ⟨fun a b => a.num * (b.den : Int) < b.num * (a.den : Int)⟩

instance (a b : Frac) : Decidable (a ≤ b) :=
  inferInstanceAs (Decidable (a.num * (b.den : Int) ≤ b.num * (a.den : Int)))

instance (a b : Frac) : Decidable (a < b) :=
  inferInstanceAs (Decidable (a.num * (b.den : Int) < b.num * (a.den : Int)))

/-- Python `int(x)`: truncation toward zero. -/
def pyInt (a : Frac) : Int := a.num.tdiv a.den

/-- Interpretation of a fraction as a rational number. -/
def Frac.toRat (a : Frac) : Rat := (a.num : Rat) / (a.den : Rat)

theorem Frac.toRat_fr (n : Int) : (fr n).toRat = (n : Rat) := by
  simp [Frac.toRat, fr]

theorem Frac.toRat_add (a b : Frac) : (a + b).toRat = a.toRat + b.toRat := by
  have ha : ((a.den : Rat)) ≠ 0 := by exact_mod_cast a.den_pos.ne'
  have hb : ((b.den : Rat)) ≠ 0 := by exact_mod_cast b.den_pos.ne'
  show (Frac.add a b).toRat = _
  simp only [Frac.toRat, Frac.add]
  push_cast
  field_simp

theorem Frac.toRat_sub (a b : Frac) : (a - b).toRat = a.toRat - b.toRat := by
  have ha : ((a.den : Rat)) ≠ 0 := by exact_mod_cast a.den_pos.ne'
  have hb : ((b.den : Rat)) ≠ 0 := by exact_mod_cast b.den_pos.ne'
  show (Frac.sub a b).toRat = _
  simp only [Frac.toRat, Frac.sub]
  push_cast
  field_simp
  ring

theorem Frac.toRat_mul (a b : Frac) : (a * b).toRat = a.toRat * b.toRat := by
  have ha : ((a.den : Rat)) ≠ 0 := by exact_mod_cast a.den_pos.ne'
  have hb : ((b.den : Rat)) ≠ 0 := by exact_mod_cast b.den_pos.ne'
  show (Frac.mul a b).toRat = _
  simp only [Frac.toRat, Frac.mul]
  push_cast
  field_simp

theorem Frac.toRat_le (a b : Frac) : a ≤ b ↔ a.toRat ≤ b.toRat := by
  have ha : (0 : Rat) < (a.den : Rat) := by exact_mod_cast a.den_pos
  have hb : (0 : Rat) < (b.den : Rat) := by exact_mod_cast b.den_pos
  show a.num * (b.den : Int) ≤ b.num * (a.den : Int) ↔ _
  rw [Frac.toRat, Frac.toRat, div_le_div_iff₀ ha hb]
  exact_mod_cast Iff.rfl

theorem Frac.toRat_lt (a b : Frac) : a < b ↔ a.toRat < b.toRat := by
  have ha : (0 : Rat) < (a.den : Rat) := by exact_mod_cast a.den_pos
  have hb : (0 : Rat) < (b.den : Rat) := by exact_mod_cast b.den_pos
  show a.num * (b.den : Int) < b.num * (a.den : Int) ↔ _
  rw [Frac.toRat, Frac.toRat, div_lt_div_iff₀ ha hb]
  exact_mod_cast Iff.rfl

/-- Split a character list at a separator character (models Python
`str.split` for the single-space shift-name strings built by the source,
which never contain consecutive or leading/trailing spaces). -/
def chSplit (sep : Char) : List Char → List (List Char)
  | [] => [[]]
  | c :: cs =>
    let r := chSplit sep cs
    if c = sep then [] :: r
    else
      match r with
      | [] => [[c]]
      | w :: ws => (c :: w) :: ws

/-- Words of a string, splitting on spaces. -/
def wordsOf (s : String) : List String :=
  (chSplit ' ' s.data).map String.mk

/-- Contiguous-subsequence test on character lists. -/
def hasSeg (p : List Char) : List Char → Bool
  | [] => p.isEmpty
  | c :: cs => p.isPrefixOf (c :: cs) || hasSeg p cs

/-- Python `sub in s` substring test. -/
def pyIn (sub s : String) : Bool := hasSeg sub.data s.data

/-- Doctor data model (fields used by the scheduling core; email, phone,
specialization and status are plumbing not consumed by the scheduler).
`unavailable_dates` holds day offsets from the start date. -/
structure Doctor where
  name : String
  eft : Frac
  rosebud_preference : Int := 0
  unavailable_dates : List Nat := []

/-- Shift data model. -/
structure Shift where
  site : String
  role : String
  shift_type : String
  duration_hours : Frac := fr 10
  is_undesirable : Bool := false

/-- `Shift.get_penalty_score`: penalty score for a shift assignment. -/
def Shift.get_penalty_score (s : Shift) (is_friday : Bool) : Frac :=
  let penalty := fr 0
  -- Leadership roles (Blue, Green)
  let penalty := if s.role = "Blue" ∨ s.role = "Green" then penalty + fr 3 else penalty
  -- Rosebud PM shifts
  let penalty := if s.site = "Rosebud" ∧ s.shift_type = "PM" then penalty + fr 3 else penalty
  -- Friday PM shifts
  let penalty := if is_friday ∧ s.shift_type = "PM" then penalty + fr 2 else penalty
  -- General Rosebud preference
  let penalty := if s.site = "Rosebud" then penalty + fr 1 else penalty
  penalty

/-- `ShiftTemplate._create_frankston_shifts`: Frankston clinical shifts
(AM roles then PM roles, in source loop order). -/
def frankston_shifts : List Shift :=
  (["Blue", "Yellow", "Pink", "Brown", "EPIC"].map fun role =>
    { site := "Frankston", role := role, shift_type := "AM",
      duration_hours := fr 10, is_undesirable := role == "Blue" })
  ++ (["Green", "Orange", "Pink", "Brown"].map fun role =>
    { site := "Frankston", role := role, shift_type := "PM",
      duration_hours := fr 10, is_undesirable := role == "Green" })

/-- `ShiftTemplate._create_rosebud_shifts`: Rosebud clinical shifts. -/
def rosebud_shifts : List Shift :=
  [{ site := "Rosebud", role := "Red", shift_type := "AM",
     duration_hours := fr 10, is_undesirable := false },
   { site := "Rosebud", role := "Red", shift_type := "PM",
     duration_hours := fr 10, is_undesirable := true }]

/-- `ShiftTemplate._create_non_clinical_shifts`: admin shifts.  The source
builds the role labels with `range` loops (`Admin-1..8`, `Admin-PM-1..4`,
Rosebud `Admin-1..2`); the lists are written out here. -/
def non_clinical_shifts : List Shift :=
  (["Admin-1", "Admin-2", "Admin-3", "Admin-4",
    "Admin-5", "Admin-6", "Admin-7", "Admin-8"].map fun r =>
    { site := "Frankston", role := r, shift_type := "Admin",
      duration_hours := fr 8, is_undesirable := false })
  ++ (["Admin-PM-1", "Admin-PM-2", "Admin-PM-3", "Admin-PM-4"].map fun r =>
    { site := "Frankston", role := r, shift_type := "Admin",
      duration_hours := fr 8, is_undesirable := false })
  ++ (["Admin-1", "Admin-2"].map fun r =>
    { site := "Rosebud", role := r, shift_type := "Admin",
      duration_hours := fr 8, is_undesirable := false })

/-- The shift-name label `f"{shift.site} {shift.role} {shift.shift_type}"`. -/
def shiftNameOf (s : Shift) : String := s.site ++ " " ++ s.role ++ " " ++ s.shift_type

/-- `SimpleScheduler._parse_shift_from_name`: re-derive a `Shift` from its
display label (lossy: duration defaults back to 10 hours and the
undesirability flag to `False`). -/
def parse_shift_from_name (shift_name : String) : Option Shift :=
  let parts := wordsOf shift_name
  if parts.length < 3 then none
  else
    match parts with
    | site :: role :: stype :: _ =>
      some { site := site, role := role, shift_type := stype,
             duration_hours := fr 10, is_undesirable := false }
    | _ => none

/-- Day `d` (offset from the start date) is a Friday. -/
def isFridayIdx (start_weekday d : Nat) : Bool := (start_weekday + d) % 7 == 4

/-- Python-dict lookup on an insertion-ordered association list. -/
def dlookup {α β : Type} [DecidableEq α] : List (α × β) → α → Option β
  | [], _ => none
  | (k, v) :: rest, k' => if k = k' then some v else dlookup rest k'

/-- Python-dict write: overwrite in place, else append at the end. -/
def dinsert {α β : Type} [DecidableEq α] : List (α × β) → α → β → List (α × β)
  | [], k, v => [(k, v)]
  | (k', v') :: rest, k, v =>
    if k' = k then (k, v) :: rest else (k', v') :: dinsert rest k v

/-- Apply a function to the value stored at a key (no-op when absent; in
the scheduler the key is always a doctor name initialised at run start,
so the absent case is unreachable, where Python would raise `KeyError`). -/
def dadjust {α β : Type} [DecidableEq α] : List (α × β) → α → (β → β) → List (α × β)
  | [], _, _ => []
  | (k', v') :: rest, k, f =>
    if k' = k then (k, f v') :: rest else (k', v') :: dadjust rest k f

/-- Per-doctor workload ledger (`self.doctor_workloads[name]`). -/
structure Workload where
  total_hours : Frac
  total_shifts : Nat
  undesirable_shifts : Nat
  penalty_points : Frac
  max_hours : Frac
  remaining_hours : Frac
  target_clinical_shifts : Int
  target_admin_shifts : Int
  current_clinical_shifts : Nat
  current_admin_shifts : Nat

/-- Placeholder workload returned by lookups on absent names (unreachable
in the pipeline: every doctor is initialised before allocation). -/
def Workload.empty : Workload :=
  ⟨fr 0, 0, 0, fr 0, fr 0, fr 0, 0, 0, 0, 0⟩

/-- Scheduler state: `self.assignments` (doctor → date → shift label) and
`self.doctor_workloads` (doctor → ledger), both insertion-ordered. -/
structure SchedState where
  assignments : List (String × List (Nat × String))
  workloads : List (String × Workload)

/-- `self.assignments[name]` (empty when absent; unreachable in pipeline). -/
def assignedMap (st : SchedState) (name : String) : List (Nat × String) :=
  (dlookup st.assignments name).getD []

/-- `self.doctor_workloads[name]` (placeholder when absent; unreachable). -/
def workloadOf (st : SchedState) (name : String) : Workload :=
  (dlookup st.workloads name).getD Workload.empty

/-- Write `self.assignments[name][date] = shift_name`. -/
def setAssign (st : SchedState) (name : String) (date : Nat) (shift_name : String) :
    SchedState :=
  { st with assignments := dadjust st.assignments name (fun m => dinsert m date shift_name) }

/-- The ledger updates performed by `_assign_shift_to_doctor`. -/
def commitWorkload (w : Workload) (shift : Shift) (is_friday : Bool)
    (shift_name : String) : Workload :=
  { w with
    total_hours := w.total_hours + shift.duration_hours
    total_shifts := w.total_shifts + 1
    remaining_hours := w.remaining_hours - shift.duration_hours
    current_admin_shifts :=
      if pyIn "Admin" shift_name then w.current_admin_shifts + 1 else w.current_admin_shifts
    current_clinical_shifts :=
      if pyIn "Admin" shift_name then w.current_clinical_shifts else w.current_clinical_shifts + 1
    undesirable_shifts :=
      if shift.is_undesirable then w.undesirable_shifts + 1 else w.undesirable_shifts
    penalty_points := w.penalty_points + shift.get_penalty_score is_friday }

/-- `SimpleScheduler._assign_shift_to_doctor`. -/
def assign_shift_to_doctor (start_weekday : Nat) (st : SchedState)
    (doctor_name : String) (date : Nat) (shift : Shift) : SchedState :=
  let shift_name := shiftNameOf shift
  let st := setAssign st doctor_name date shift_name
  { st with
    workloads := dadjust st.workloads doctor_name
      (fun w => commitWorkload w shift (isFridayIdx start_weekday date) shift_name) }

/-- The float literal 9.5 (average shift duration). -/
def nineHalf : Frac := ⟨19, 2, by decide⟩

/-- The float literal 0.5. -/
def halfF : Frac := ⟨1, 2, by decide⟩

/-- The float literal 0.25. -/
def quarterF : Frac := ⟨1, 4, by decide⟩

/-- The per-doctor target computation of
`SimpleScheduler._initialize_doctor_workloads` (loop body). -/
def init_workload_for (eft : Frac) (num_weeks : Nat) : Workload :=
  let max_hours := eft * fr 40 * fr num_weeks
  -- total shifts possible within max hours at the 9.5h weighted average
  let total_shifts_possible := pyInt (max_hours / nineHalf)
  -- 3:1 ratio split
  let target_admin_shifts := max 0 (pyInt (fr total_shifts_possible / fr 4))
  let target_clinical_shifts := max 0 (pyInt (fr (total_shifts_possible * 3) / fr 4))
  -- minimum reasonable values for active doctors
  let (target_clinical_shifts, target_admin_shifts) :=
    if halfF ≤ eft then
      (max 2 target_clinical_shifts, max 1 target_admin_shifts)
    else if quarterF ≤ eft then
      let c := max 1 target_clinical_shifts
      (c, if 3 ≤ c then max 1 target_admin_shifts else target_admin_shifts)
    else (target_clinical_shifts, target_admin_shifts)
  -- adjust so that total target hours do not exceed capacity
  let total_target_hours := target_clinical_shifts * 10 + target_admin_shifts * 8
  let (target_clinical_shifts, target_admin_shifts) :=
    if max_hours < fr total_target_hours then
      let scale_factor := max_hours / fr total_target_hours
      (pyInt (fr target_clinical_shifts * scale_factor),
       pyInt (fr target_admin_shifts * scale_factor))
    else (target_clinical_shifts, target_admin_shifts)
  { total_hours := fr 0
    total_shifts := 0
    undesirable_shifts := 0
    penalty_points := fr 0
    max_hours := max_hours
    remaining_hours := max_hours
    target_clinical_shifts := target_clinical_shifts
    target_admin_shifts := target_admin_shifts
    current_clinical_shifts := 0
    current_admin_shifts := 0 }

/-- `SimpleScheduler._initialize_doctor_workloads`. -/
def init_doctor_workloads (doctors : List Doctor) (num_weeks : Nat) : SchedState :=
  doctors.foldl
    (fun st doctor =>
      { workloads := dinsert st.workloads doctor.name (init_workload_for doctor.eft num_weeks)
        assignments := dinsert st.assignments doctor.name [] })
    ⟨[], []⟩

/-- The dates of the horizon as day offsets (the source builds the same
chronological list of `"%Y-%m-%d"` strings week by week). -/
def all_dates (num_weeks : Nat) : List Nat := List.range (7 * num_weeks)

/-- Sum of all `target_admin_shifts` (the `total_admin_shifts_needed` of
`_allocate_all_admin_shifts`). -/
def total_admin_needed (st : SchedState) : Int :=
  (st.workloads.map (fun p => p.2.target_admin_shifts)).foldl (· + ·) 0

/-- `admin_shifts_per_day = max(1, int(total_admin_shifts_needed / len(all_dates)))`:
the global per-day cap, computed once. -/
def admin_shifts_per_day (st : SchedState) (num_dates : Nat) : Int :=
  max 1 (pyInt (fr (total_admin_needed st) / fr num_dates))

/-- Doctors available for an admin shift on a date: free that day, below
their admin target, at least 8 remaining hours; paired with their admin
deficit (`priority`), in ledger (= doctor list) order. -/
def adminCandidates (st : SchedState) (date : Nat) : List (String × Int) :=
  st.workloads.filterMap (fun p =>
    if (dlookup (assignedMap st p.1) date).isNone
        ∧ (p.2.current_admin_shifts : Int) < p.2.target_admin_shifts
        ∧ fr 8 ≤ p.2.remaining_hours
    then some (p.1, p.2.target_admin_shifts - p.2.current_admin_shifts)
    else none)

/-- Insert into a list ordered by a strict total order given as a Bool
comparator (`before x y` = `x` must come strictly before `y`). -/
def rankInsert {α : Type} (before : α → α → Bool) (x : α) : List α → List α
  | [] => [x]
  | y :: ys => if before x y then x :: y :: ys else y :: rankInsert before x ys

/-- Sort by a strict total order.  Used through index-tagged comparators,
for which the sorted result is unique, so this agrees with Python's
stable `list.sort`. -/
def rankSort {α : Type} (before : α → α → Bool) : List α → List α
  | [] => []
  | x :: xs => rankInsert before x (rankSort before xs)

/-- `x` strictly before `y` for `sort(key=lambda x: x[1], reverse=True)`:
larger priority first, original position breaking ties (stability). -/
def descPriorityBefore (a b : Nat × (String × Int)) : Bool :=
  if b.2.2 < a.2.2 then true
  else if a.2.2 < b.2.2 then false
  else decide (a.1 < b.1)

/-- Python's stable descending sort by priority. -/
def pySortDescByPriority (l : List (String × Int)) : List (String × Int) :=
  (rankSort descPriorityBefore l.enum).map Prod.snd

/-- `x` strictly before `y` for `sort(key=lambda x: x[1])` on penalties. -/
def ascPenaltyBefore (a b : Nat × (String × Frac)) : Bool :=
  if a.2.2 < b.2.2 then true
  else if b.2.2 < a.2.2 then false
  else decide (a.1 < b.1)

/-- Python's stable ascending sort by penalty points. -/
def pySortAscByPenalty (l : List (String × Frac)) : List (String × Frac) :=
  (rankSort ascPenaltyBefore l.enum).map Prod.snd

/-- Rosebud admin shifts first, then Frankston (the `balanced_admin_shifts`
list rebuilt identically on every date by `_allocate_all_admin_shifts`). -/
def balanced_admin_shifts : List Shift :=
  (non_clinical_shifts.filter (fun s => s.site == "Rosebud"))
  ++ (non_clinical_shifts.filter (fun s => s.site == "Frankston"))

/-- The inner `for shift in balanced_admin_shifts` loop of
`_allocate_all_admin_shifts`: walk the candidate list against the shift
list, stopping at the per-day cap; a shift identity already assigned to
anyone today is skipped. -/
def adminDayLoop (start_weekday date : Nat) (cap : Int) :
    List Shift → List (String × Int) → Int → SchedState → SchedState
  | [], _, _, st => st
  | shift :: rest, avail, count, st =>
    if cap ≤ count then st
    else
      let shift_name := shiftNameOf shift
      let shift_taken := st.assignments.any (fun p => dlookup p.2 date == some shift_name)
      if shift_taken ∨ avail.isEmpty then
        adminDayLoop start_weekday date cap rest avail count st
      else
        match avail with
        | [] => adminDayLoop start_weekday date cap rest avail count st
        | (doctor_name, _) :: availRest =>
          adminDayLoop start_weekday date cap rest availRest (count + 1)
            (assign_shift_to_doctor start_weekday st doctor_name date shift)

/-- One date of admin allocation. -/
def adminDay (start_weekday : Nat) (cap : Int) (st : SchedState) (date : Nat) : SchedState :=
  let available_doctors := pySortDescByPriority (adminCandidates st date)
  adminDayLoop start_weekday date cap balanced_admin_shifts available_doctors 0 st

/-- `SimpleScheduler._allocate_all_admin_shifts`.  With an empty horizon
the cap computation divides by `len(all_dates) == 0`, raising
`ZeroDivisionError`, modelled as the error case. -/
def allocate_all_admin_shifts (start_weekday : Nat) (st : SchedState) (num_weeks : Nat) :
    Except String SchedState :=
  let dates := all_dates num_weeks
  if dates.isEmpty then Except.error "ZeroDivisionError: division by zero"
  else
    Except.ok (dates.foldl (adminDay start_weekday (admin_shifts_per_day st dates.length)) st)

/-- The clinical selection key:
`target_clinical_shifts - current_clinical_shifts` for a doctor. -/
def clinicalDeficit (st : SchedState) (name : String) : Int :=
  (workloadOf st name).target_clinical_shifts - ((workloadOf st name).current_clinical_shifts : Int)

/-- Doctors eligible for a clinical shift on a date: unassigned that day,
below clinical target, enough remaining hours (doctor-list order). -/
def clinicalAvailable (doctors : List Doctor) (st : SchedState) (date : Nat) (shift : Shift) :
    List String :=
  doctors.filterMap (fun doctor =>
    if (dlookup (assignedMap st doctor.name) date).isSome then none
    else
      let workload := workloadOf st doctor.name
      if (workload.current_clinical_shifts : Int) < workload.target_clinical_shifts
          ∧ shift.duration_hours ≤ workload.remaining_hours
      then some doctor.name else none)

/-- Python `max(xs, key=key)`: first maximiser. -/
def pyMaxBy (key : String → Int) : List String → Option String
  | [] => none
  | x :: xs => some (xs.foldl (fun best a => if key best < key a then a else best) x)

/-- One clinical slot of `_distribute_clinical_shifts_with_admin_constraints`:
pick the eligible doctor with the largest clinical deficit, else leave the
slot vacant. -/
def clinicalSlotStep (doctors : List Doctor) (start_weekday date : Nat)
    (st : SchedState) (shift : Shift) : SchedState :=
  let available_doctors := clinicalAvailable doctors st date shift
  match pyMaxBy (clinicalDeficit st) available_doctors with
  | none => st
  | some best_doctor => assign_shift_to_doctor start_weekday st best_doctor date shift

/-- The day's clinical slots in catalog order (`_generate_clinical_shifts`
emits Frankston then Rosebud shifts for every date). -/
def clinical_catalog : List Shift := frankston_shifts ++ rosebud_shifts

/-- One date of clinical allocation: every slot is offered (no day-level
cap, no retry pass). -/
def clinicalDay (doctors : List Doctor) (start_weekday : Nat) (st : SchedState)
    (date : Nat) : SchedState :=
  clinical_catalog.foldl (clinicalSlotStep doctors start_weekday date) st

/-- `_allocate_all_clinical_shifts` +
`_distribute_clinical_shifts_with_admin_constraints`. -/
def distribute_clinical_shifts_with_admin_constraints (doctors : List Doctor)
    (start_weekday : Nat) (st : SchedState) (num_weeks : Nat) : SchedState :=
  (all_dates num_weeks).foldl (clinicalDay doctors start_weekday) st

/-- `SimpleScheduler._get_doctor_by_name`. -/
def get_doctor_by_name (doctors : List Doctor) (name : String) : Option Doctor :=
  doctors.find? (fun d => d.name == name)

/-- Unavailable dates of a doctor looked up by name (empty when the name
is unknown; unreachable in the pipeline, where every workload key is a
doctor's name). -/
def unavailOf (doctors : List Doctor) (name : String) : List Nat :=
  ((get_doctor_by_name doctors name).map Doctor.unavailable_dates).getD []

/-- `SimpleScheduler._swap_assignments`: exchange the two shift labels
stored at `(doctor1, date1)` and `(doctor2, date2)` and transfer the
re-derived penalty contributions.  The callers take both dates from the
doctors' own assignment dicts, so both lookups succeed there (Python
would raise `KeyError` otherwise; modelled as a no-op), and a parse
failure returns before any write, as in the source. -/
def swap_assignments (start_weekday : Nat) (st : SchedState)
    (doctor1 : String) (date1 : Nat) (doctor2 : String) (date2 : Nat) : SchedState :=
  match dlookup (assignedMap st doctor1) date1, dlookup (assignedMap st doctor2) date2 with
  | some shift1, some shift2 =>
    match parse_shift_from_name shift1, parse_shift_from_name shift2 with
    | some shift1_obj, some shift2_obj =>
      let penalty1 := shift1_obj.get_penalty_score (isFridayIdx start_weekday date1)
      let penalty2 := shift2_obj.get_penalty_score (isFridayIdx start_weekday date2)
      let st := setAssign st doctor1 date1 shift2
      let st := setAssign st doctor2 date2 shift1
      let st := { st with workloads := (dadjust st.workloads doctor1
        (fun w => { w with penalty_points := w.penalty_points - penalty1 + penalty2 })) }
      { st with workloads := (dadjust st.workloads doctor2
        (fun w => { w with penalty_points := w.penalty_points - penalty2 + penalty1 })) }
    | _, _ => st
  | _, _ => st

/-- Inner loop of `_try_swap_shifts_between_doctors` over the low-penalty
doctor's assignments: first (high, low) date pair whose penalty gap
exceeds 1.0 and whose unavailability checks pass triggers the swap. -/
def trySwapInner (doctors : List Doctor) (start_weekday : Nat)
    (high_doctor low_doctor : String) (high_date : Nat) (high_shift_name : String) :
    List (Nat × String) → SchedState → Option SchedState
  | [], _ => none
  | (low_date, low_shift_name) :: rest, st =>
    match parse_shift_from_name high_shift_name, parse_shift_from_name low_shift_name with
    | some high_shift, some low_shift =>
      let high_penalty := high_shift.get_penalty_score (isFridayIdx start_weekday high_date)
      let low_penalty := low_shift.get_penalty_score (isFridayIdx start_weekday low_date)
      if low_penalty + fr 1 < high_penalty then
        if low_date ∉ unavailOf doctors high_doctor
            ∧ high_date ∉ unavailOf doctors low_doctor then
          some (swap_assignments start_weekday st high_doctor high_date low_doctor low_date)
        else
          trySwapInner doctors start_weekday high_doctor low_doctor high_date high_shift_name rest st
      else
        trySwapInner doctors start_weekday high_doctor low_doctor high_date high_shift_name rest st
    | _, _ =>
      trySwapInner doctors start_weekday high_doctor low_doctor high_date high_shift_name rest st

/-- Outer loop of `_try_swap_shifts_between_doctors` over the high-penalty
doctor's assignments. -/
def trySwapOuter (doctors : List Doctor) (start_weekday : Nat)
    (high_doctor low_doctor : String) (lows : List (Nat × String)) :
    List (Nat × String) → SchedState → Option SchedState
  | [], _ => none
  | (high_date, high_shift_name) :: rest, st =>
    match trySwapInner doctors start_weekday high_doctor low_doctor high_date
        high_shift_name lows st with
    | some st1 => some st1
    | none => trySwapOuter doctors start_weekday high_doctor low_doctor lows rest st

/-- `SimpleScheduler._try_swap_shifts_between_doctors` (`some` = swap
performed = Python `True`). -/
def try_swap_shifts_between_doctors (doctors : List Doctor) (start_weekday : Nat)
    (st : SchedState) (high_doctor low_doctor : String) : Option SchedState :=
  trySwapOuter doctors start_weekday high_doctor low_doctor
    (assignedMap st low_doctor) (assignedMap st high_doctor) st

/-- Inner loop of `_balance_tough_shifts` over low-penalty doctors. -/
def balanceLoopInner (doctors : List Doctor) (start_weekday : Nat) (max_swaps : Nat)
    (high_doctor : String) :
    List (String × Frac) → Nat → SchedState → Nat × SchedState
  | [], swaps_made, st => (swaps_made, st)
  | (low_doctor, _) :: rest, swaps_made, st =>
    if max_swaps ≤ swaps_made then (swaps_made, st)
    else
      match try_swap_shifts_between_doctors doctors start_weekday st high_doctor low_doctor with
      | some st1 =>
        balanceLoopInner doctors start_weekday max_swaps high_doctor rest (swaps_made + 1) st1
      | none => balanceLoopInner doctors start_weekday max_swaps high_doctor rest swaps_made st

/-- Outer loop of `_balance_tough_shifts` over high-penalty doctors. -/
def balanceLoopOuter (doctors : List Doctor) (start_weekday : Nat) (max_swaps : Nat)
    (lows : List (String × Frac)) :
    List (String × Frac) → Nat → SchedState → Nat × SchedState
  | [], swaps_made, st => (swaps_made, st)
  | (high_doctor, _) :: rest, swaps_made, st =>
    if max_swaps ≤ swaps_made then (swaps_made, st)
    else
      let r := balanceLoopInner doctors start_weekday max_swaps high_doctor lows swaps_made st
      balanceLoopOuter doctors start_weekday max_swaps lows rest r.1 r.2

/-- `SimpleScheduler._balance_tough_shifts` (the whole of
`_apply_final_optimizations`). -/
def balance_tough_shifts (doctors : List Doctor) (start_weekday : Nat)
    (st : SchedState) : SchedState :=
  let doctor_penalties := st.workloads.map (fun p => (p.1, p.2.penalty_points))
  let doctor_penalties := pySortAscByPenalty doctor_penalties
  if doctor_penalties.length < 2 then st
  else
    let total_penalty_points := (doctor_penalties.map Prod.snd).foldl (· + ·) (fr 0)
    let avg_penalty := total_penalty_points / fr doctor_penalties.length
    let high_penalty_doctors :=
      doctor_penalties.filter (fun p => avg_penalty * ⟨6, 5, by decide⟩ < p.2)
    let low_penalty_doctors :=
      doctor_penalties.filter (fun p => p.2 < avg_penalty * ⟨4, 5, by decide⟩)
    let max_swaps := min 10 (high_penalty_doctors.length * 2)
    (balanceLoopOuter doctors start_weekday max_swaps low_penalty_doctors
      high_penalty_doctors 0 st).2

/-- `SimpleScheduler.generate_roster`: the pipeline.  The Bool result is
the Python return value (`False` when a stage raises); the state is the
scheduler's `self` state when the run ends.  `_verify_and_adjust_ratios`
is a no-op placeholder in the source. -/
def generate_roster (doctors : List Doctor) (start_weekday num_weeks : Nat) :
    Bool × SchedState :=
  let st := init_doctor_workloads doctors num_weeks
  match allocate_all_admin_shifts start_weekday st num_weeks with
  | Except.error _ => (false, st)
  | Except.ok st1 =>
    let st2 := distribute_clinical_shifts_with_admin_constraints doctors start_weekday st1 num_weeks
    let st3 := balance_tough_shifts doctors start_weekday st2
    (true, st3)

/-- All `(doctor, date, shift label)` assignment entries of a state. -/
def allTriples (st : SchedState) : List (String × Nat × String) :=
  st.assignments.foldr (fun p acc => (p.2.map (fun q => (p.1, q.1, q.2))) ++ acc) []

/-- Does `t` clash with some entry of `rest`: same date and same shift
identity label but a different doctor? -/
def dupWith (t : String × Nat × String) (rest : List (String × Nat × String)) : Bool :=
  rest.any (fun u => t.1 ≠ u.1 ∧ t.2.1 = u.2.1 ∧ t.2.2 = u.2.2)

/-- Violation of the (date, shift identity) uniqueness invariant: two
distinct doctors assigned the same shift label on the same date. -/
def dupOnDate (st : SchedState) : Bool :=
  let rec go : List (String × Nat × String) → Bool
    | [] => false
    | t :: rest => dupWith t rest || go rest
  go (allTriples st)

/-- Concrete run exhibiting the rebalancer's uniqueness violation:
three doctors, one-week horizon starting on a Monday. -/
def c2_doctors : List Doctor :=
  [{ name := "D1", eft := fr 1 }, { name := "D2", eft := fr 1 },
   { name := "D3", eft := ⟨1, 2, by decide⟩ }]

/-- The c2 run's state after admin and clinical allocation, before the
fairness rebalancer. -/
def c2_pre_balance : SchedState :=
  match allocate_all_admin_shifts 0 (init_doctor_workloads c2_doctors 1) 1 with
  | Except.ok st1 => distribute_clinical_shifts_with_admin_constraints c2_doctors 0 st1 1
  | Except.error _ => init_doctor_workloads c2_doctors 1

set_option maxRecDepth 100000 in
/-- C2: the claim that every stage, including every rebalancing swap,
preserves "at most one person per (date, shift identity)" fails on the
code: on this three-doctor one-week run the invariant holds after the
admin and clinical stages, but the rebalancer then swaps D1's day-1
"Frankston Blue AM" with D3's day-0 "Frankston Yellow AM" without
checking whether the exchanged identities are already taken on the
target dates — after the full pipeline both D2 and D3 hold
"Frankston Blue AM" on day 0. -/
theorem C2_swap_breaks_uniqueness :
    dupOnDate c2_pre_balance = false
      ∧ dupOnDate (generate_roster c2_doctors 0 1).2 = true := by
  constructor
  · rfl
  · rfl

/-- Scenario B doctors: Bob is unavailable on every date of the one-week
horizon. -/
def c3_bob : Doctor := { name := "Bob", eft := fr 1, unavailable_dates := all_dates 1 }

def c3_doctors : List Doctor := [{ name := "Alice", eft := fr 1 }, c3_bob]

set_option maxRecDepth 100000 in
/-- C3: the claim (spec Scenario B) that a person whose unavailable-date
set covers the whole horizon receives zero assignments fails on the code:
neither the admin allocator nor the clinical allocator consults
`unavailable_dates` (only the rebalancer does), so Bob — unavailable on
every date — still ends the run with 4 assignments. -/
theorem C3_unavailable_doctor_still_assigned :
    c3_bob.unavailable_dates = all_dates 1
      ∧ ((dlookup (generate_roster c3_doctors 0 1).2.assignments "Bob").getD []).length = 4 := by
  exact ⟨rfl, rfl⟩

/-- C10: with a zero-week horizon the admin allocator's per-day cap
computation divides by `len(all_dates) == 0`; the `ZeroDivisionError` is
caught by `generate_roster`, which returns failure rather than an empty
roster, for every doctor list and start weekday. -/
theorem C10_zero_weeks_fails (doctors : List Doctor) (start_weekday : Nat) :
    allocate_all_admin_shifts start_weekday (init_doctor_workloads doctors 0) 0
        = Except.error "ZeroDivisionError: division by zero"
      ∧ (generate_roster doctors start_weekday 0).1 = false := by
  constructor
  · simp [allocate_all_admin_shifts, all_dates]
  · simp [generate_roster, allocate_all_admin_shifts, all_dates]

/-- C5: the penalty score is the sum of four independent additive
components (leadership role, minority-site PM, Friday PM, minority
site), and a Friday PM Rosebud leadership shift scores 3+3+2+1 = 9. -/
theorem C5_penalty_score_components :
    (∀ (s : Shift) (is_friday : Bool),
      (s.get_penalty_score is_friday).toRat =
        (if s.role = "Blue" ∨ s.role = "Green" then 3 else 0)
        + (if s.site = "Rosebud" ∧ s.shift_type = "PM" then 3 else 0)
        + (if is_friday ∧ s.shift_type = "PM" then 2 else 0)
        + (if s.site = "Rosebud" then 1 else 0))
    ∧ (Shift.get_penalty_score
        { site := "Rosebud", role := "Green", shift_type := "PM" } true).toRat = 9 := by
  constructor
  · intro s is_friday
    unfold Shift.get_penalty_score
    split_ifs <;> simp_all [Frac.toRat_add, Frac.toRat_fr]
  · simp [Shift.get_penalty_score, Frac.toRat_add, Frac.toRat_fr]
    norm_num

/-- Well-formedness of the assignment table: doctor keys are distinct and
every doctor's date keys are distinct — i.e. at most one assignment
entry per (person, date). -/
def TableWF (t : List (String × List (Nat × String))) : Prop :=
  (t.map Prod.fst).Nodup ∧ ∀ p ∈ t, ((p.2).map Prod.fst).Nodup

/-- Well-formedness of a scheduler state. -/
def StateWF (st : SchedState) : Prop := TableWF st.assignments

instance (t : List (String × List (Nat × String))) : Decidable (TableWF t) := by
  unfold TableWF
  exact inferInstance

instance (st : SchedState) : Decidable (StateWF st) := by
  unfold StateWF
  exact inferInstance

theorem keys_dinsert_sub {α β : Type} [DecidableEq α] (m : List (α × β)) (k : α) (v : β) :
    ∀ a, a ∈ (dinsert m k v).map Prod.fst → a ∈ m.map Prod.fst ∨ a = k := by
  induction m with
  | nil => intro a ha; simp [dinsert] at ha; simp [ha]
  | cons p rest ih =>
    obtain ⟨k', v'⟩ := p
    intro a ha
    simp only [dinsert] at ha
    by_cases hk : k' = k
    · simp [hk] at ha
      rcases ha with h | h
      · exact Or.inr h
      · exact Or.inl (by simp; right; simpa using h)
    · simp [hk] at ha
      rcases ha with h | h
      · exact Or.inl (by simp [h])
      · rcases ih a (by simpa using h) with h1 | h1
        · exact Or.inl (by simp at h1 ⊢; tauto)
        · exact Or.inr h1

theorem nodup_keys_dinsert {α β : Type} [DecidableEq α] (m : List (α × β)) (k : α) (v : β)
    (h : (m.map Prod.fst).Nodup) : ((dinsert m k v).map Prod.fst).Nodup := by
  induction m with
  | nil => simp [dinsert]
  | cons p rest ih =>
    obtain ⟨k', v'⟩ := p
    simp only [dinsert]
    by_cases hk : k' = k
    · simp only [if_pos hk]
      simp only [List.map_cons, List.nodup_cons] at h ⊢
      exact ⟨by rw [← hk]; exact h.1, h.2⟩
    · simp only [if_neg hk]
      simp only [List.map_cons, List.nodup_cons] at h ⊢
      refine ⟨fun hmem => ?_, ih h.2⟩
      rcases keys_dinsert_sub rest k v k' hmem with h1 | h1
      · exact h.1 h1
      · exact hk h1

theorem mem_dinsert {α β : Type} [DecidableEq α] (m : List (α × β)) (k : α) (v : β) :
    ∀ q ∈ dinsert m k v, q = (k, v) ∨ q ∈ m := by
  induction m with
  | nil => intro q hq; simp [dinsert] at hq; simp [hq]
  | cons p rest ih =>
    obtain ⟨k', v'⟩ := p
    intro q hq
    simp only [dinsert] at hq
    by_cases hk : k' = k
    · simp [hk] at hq
      rcases hq with h | h
      · exact Or.inl (by simp [h])
      · exact Or.inr (by simp [h])
    · simp [hk] at hq
      rcases hq with h | h
      · exact Or.inr (by simp [h])
      · rcases ih q h with h1 | h1
        · exact Or.inl h1
        · exact Or.inr (by simp [h1])

theorem keys_dadjust {α β : Type} [DecidableEq α] (m : List (α × β)) (k : α) (f : β → β) :
    (dadjust m k f).map Prod.fst = m.map Prod.fst := by
  induction m with
  | nil => simp [dadjust]
  | cons p rest ih =>
    obtain ⟨k', v'⟩ := p
    simp only [dadjust]
    by_cases hk : k' = k
    · simp [hk]
    · simp [hk, ih]

theorem mem_dadjust {α β : Type} [DecidableEq α] (m : List (α × β)) (k : α) (f : β → β) :
    ∀ q ∈ dadjust m k f, q ∈ m ∨ ∃ p ∈ m, q.2 = f p.2 := by
  induction m with
  | nil => intro q hq; simp [dadjust] at hq
  | cons p rest ih =>
    obtain ⟨k', v'⟩ := p
    intro q hq
    simp only [dadjust] at hq
    by_cases hk : k' = k
    · simp [hk] at hq
      rcases hq with h | h
      · exact Or.inr ⟨(k', v'), by simp, by simp [h]⟩
      · exact Or.inl (by simp [h])
    · simp [hk] at hq
      rcases hq with h | h
      · exact Or.inl (by simp [h])
      · rcases ih q h with h1 | h1
        · exact Or.inl (by simp [h1])
        · obtain ⟨p1, hp1, hp2⟩ := h1
          exact Or.inr ⟨p1, by simp [hp1], hp2⟩

theorem setAssign_WF (st : SchedState) (name : String) (date : Nat) (sname : String)
    (h : StateWF st) : StateWF (setAssign st name date sname) := by
  obtain ⟨h1, h2⟩ := h
  constructor
  · rw [setAssign]
    simpa [keys_dadjust] using h1
  · intro p hp
    rw [setAssign] at hp
    rcases mem_dadjust st.assignments name (fun m => dinsert m date sname) p hp with hmem | hmem
    · exact h2 p hmem
    · obtain ⟨q, hq, hq2⟩ := hmem
      rw [hq2]
      exact nodup_keys_dinsert _ _ _ (h2 q hq)

theorem assign_WF (start_weekday : Nat) (st : SchedState) (name : String) (date : Nat)
    (shift : Shift) (h : StateWF st) :
    StateWF (assign_shift_to_doctor start_weekday st name date shift) := by
  have := setAssign_WF st name date (shiftNameOf shift) h
  unfold assign_shift_to_doctor
  exact this

theorem swap_WF (start_weekday : Nat) (st : SchedState) (d1 : String) (date1 : Nat)
    (d2 : String) (date2 : Nat) (h : StateWF st) :
    StateWF (swap_assignments start_weekday st d1 date1 d2 date2) := by
  unfold swap_assignments
  split
  case _ s1 s2 _ =>
    split
    case _ o1 o2 _ => exact setAssign_WF _ _ _ _ (setAssign_WF _ _ _ _ h)
    case _ => exact h
  case _ => exact h

theorem foldl_preserve {α β : Type} {P : α → Prop} (f : α → β → α)
    (hf : ∀ a b, P a → P (f a b)) : ∀ (l : List β) (a : α), P a → P (l.foldl f a) := by
  intro l
  induction l with
  | nil => intro a h; simpa using h
  | cons b rest ih => intro a h; simpa using ih (f a b) (hf a b h)

theorem init_WF (doctors : List Doctor) (num_weeks : Nat) :
    StateWF (init_doctor_workloads doctors num_weeks) := by
  unfold init_doctor_workloads
  apply foldl_preserve
  · intro st doctor h
    obtain ⟨h1, h2⟩ := h
    refine ⟨by simpa using nodup_keys_dinsert _ _ _ h1, ?_⟩
    intro p hp
    rcases mem_dinsert st.assignments doctor.name [] p (by simpa using hp) with h | h
    · simp [h]
    · exact h2 p h
  · exact ⟨by simp, by simp⟩

theorem adminDayLoop_WF (start_weekday date : Nat) (cap : Int) :
    ∀ (shifts : List Shift) (avail : List (String × Int)) (count : Int) (st : SchedState),
      StateWF st → StateWF (adminDayLoop start_weekday date cap shifts avail count st) := by
  intro shifts
  induction shifts with
  | nil => intro avail count st h; simpa [adminDayLoop] using h
  | cons shift rest ih =>
    intro avail count st h
    rw [adminDayLoop.eq_def]
    dsimp only
    split
    · exact h
    · split
      · exact ih _ _ _ h
      · split
        · exact ih _ _ _ h
        · exact ih _ _ _ (assign_WF _ _ _ _ _ h)

theorem adminDay_WF (start_weekday : Nat) (cap : Int) (st : SchedState) (date : Nat)
    (h : StateWF st) : StateWF (adminDay start_weekday cap st date) :=
  adminDayLoop_WF start_weekday date cap _ _ _ _ h

theorem allocate_admin_WF (start_weekday : Nat) (st : SchedState) (num_weeks : Nat)
    (st1 : SchedState) (h : StateWF st)
    (hok : allocate_all_admin_shifts start_weekday st num_weeks = Except.ok st1) :
    StateWF st1 := by
  by_cases hd : (all_dates num_weeks).isEmpty
  · simp [allocate_all_admin_shifts, hd] at hok
  · simp only [allocate_all_admin_shifts, hd, if_neg, Bool.false_eq_true,
      Except.ok.injEq] at hok
    cases hok
    exact foldl_preserve _ (fun a b ha => adminDay_WF _ _ a b ha) _ _ h

theorem clinicalSlotStep_WF (doctors : List Doctor) (start_weekday date : Nat)
    (st : SchedState) (shift : Shift) (h : StateWF st) :
    StateWF (clinicalSlotStep doctors start_weekday date st shift) := by
  unfold clinicalSlotStep
  cases hm : pyMaxBy (clinicalDeficit st) (clinicalAvailable doctors st date shift) with
  | none => simpa [hm] using h
  | some best => simpa [hm] using assign_WF start_weekday st best date shift h

theorem clinical_WF (doctors : List Doctor) (start_weekday : Nat) (st : SchedState)
    (num_weeks : Nat) (h : StateWF st) :
    StateWF (distribute_clinical_shifts_with_admin_constraints doctors start_weekday st num_weeks) := by
  unfold distribute_clinical_shifts_with_admin_constraints
  apply foldl_preserve
  · intro a b ha
    unfold clinicalDay
    exact foldl_preserve _ (fun a2 b2 ha2 => clinicalSlotStep_WF _ _ _ _ _ ha2) _ _ ha
  · exact h

theorem trySwapInner_WF (doctors : List Doctor) (start_weekday : Nat)
    (high_doctor low_doctor : String) (high_date : Nat) (high_shift_name : String) :
    ∀ (lows : List (Nat × String)) (st st1 : SchedState), StateWF st →
      trySwapInner doctors start_weekday high_doctor low_doctor high_date high_shift_name
        lows st = some st1 → StateWF st1 := by
  intro lows
  induction lows with
  | nil => intro st st1 h hs; simp [trySwapInner] at hs
  | cons p rest ih =>
    obtain ⟨low_date, low_shift_name⟩ := p
    intro st st1 h hs
    rw [trySwapInner] at hs
    dsimp only at hs
    split at hs
    · split at hs
      · split at hs
        · cases hs
          exact swap_WF _ _ _ _ _ _ h
        · exact ih st st1 h hs
      · exact ih st st1 h hs
    · exact ih st st1 h hs

theorem trySwapOuter_WF (doctors : List Doctor) (start_weekday : Nat)
    (high_doctor low_doctor : String) (lows : List (Nat × String)) :
    ∀ (highs : List (Nat × String)) (st st1 : SchedState), StateWF st →
      trySwapOuter doctors start_weekday high_doctor low_doctor lows highs st = some st1 →
      StateWF st1 := by
  intro highs
  induction highs with
  | nil => intro st st1 h hs; simp [trySwapOuter] at hs
  | cons p rest ih =>
    obtain ⟨high_date, high_shift_name⟩ := p
    intro st st1 h hs
    rw [trySwapOuter] at hs
    split at hs
    case _ st2 heq =>
      cases hs
      exact trySwapInner_WF _ _ _ _ _ _ _ _ _ h heq
    case _ =>
      exact ih st st1 h hs

theorem try_swap_WF (doctors : List Doctor) (start_weekday : Nat) (st : SchedState)
    (high_doctor low_doctor : String) (st1 : SchedState) (h : StateWF st)
    (hs : try_swap_shifts_between_doctors doctors start_weekday st high_doctor low_doctor
      = some st1) : StateWF st1 :=
  trySwapOuter_WF _ _ _ _ _ _ _ _ h hs

theorem balanceLoopInner_WF (doctors : List Doctor) (start_weekday : Nat) (max_swaps : Nat)
    (high_doctor : String) :
    ∀ (lows : List (String × Frac)) (swaps_made : Nat) (st : SchedState), StateWF st →
      StateWF (balanceLoopInner doctors start_weekday max_swaps high_doctor lows
        swaps_made st).2 := by
  intro lows
  induction lows with
  | nil => intro swaps_made st h; simpa [balanceLoopInner] using h
  | cons p rest ih =>
    obtain ⟨low_doctor, pen⟩ := p
    intro swaps_made st h
    rw [balanceLoopInner]
    split
    · exact h
    · split
      case _ st2 heq => exact ih _ _ (try_swap_WF _ _ _ _ _ _ h heq)
      case _ => exact ih _ _ h

theorem balanceLoopOuter_WF (doctors : List Doctor) (start_weekday : Nat) (max_swaps : Nat)
    (lows : List (String × Frac)) :
    ∀ (highs : List (String × Frac)) (swaps_made : Nat) (st : SchedState), StateWF st →
      StateWF (balanceLoopOuter doctors start_weekday max_swaps lows highs swaps_made st).2 := by
  intro highs
  induction highs with
  | nil => intro swaps_made st h; simpa [balanceLoopOuter] using h
  | cons p rest ih =>
    obtain ⟨high_doctor, pen⟩ := p
    intro swaps_made st h
    rw [balanceLoopOuter]
    split
    · exact h
    · exact ih _ _ (balanceLoopInner_WF _ _ _ _ _ _ _ h)

theorem balance_WF (doctors : List Doctor) (start_weekday : Nat) (st : SchedState)
    (h : StateWF st) : StateWF (balance_tough_shifts doctors start_weekday st) := by
  unfold balance_tough_shifts
  dsimp only
  split
  · exact h
  · exact balanceLoopOuter_WF _ _ _ _ _ _ _ h

theorem generate_WF (doctors : List Doctor) (start_weekday num_weeks : Nat) :
    StateWF (generate_roster doctors start_weekday num_weeks).2 := by
  unfold generate_roster
  cases hok : allocate_all_admin_shifts start_weekday
      (init_doctor_workloads doctors num_weeks) num_weeks with
  | error e =>
    simp only [hok]
    exact init_WF doctors num_weeks
  | ok st1 =>
    simp only [hok]
    exact balance_WF _ _ _ (clinical_WF _ _ _ _
      (allocate_admin_WF _ _ _ _ (init_WF doctors num_weeks) hok))

/-- C1: after every stage of roster generation — workload initialisation,
admin allocation, clinical allocation, fairness rebalancing, and the
full pipeline — the assignment table has at most one entry per
(person, date): every mutation goes through the dict write `dinsert`,
which overwrites in place rather than duplicating a key, and each stage
preserves table well-formedness. -/
theorem C1_at_most_one_assignment_per_person_date :
    (∀ (doctors : List Doctor) (num_weeks : Nat),
        StateWF (init_doctor_workloads doctors num_weeks))
    ∧ (∀ (start_weekday : Nat) (st : SchedState) (num_weeks : Nat) (st1 : SchedState),
        StateWF st →
        allocate_all_admin_shifts start_weekday st num_weeks = Except.ok st1 → StateWF st1)
    ∧ (∀ (doctors : List Doctor) (start_weekday : Nat) (st : SchedState) (num_weeks : Nat),
        StateWF st →
        StateWF (distribute_clinical_shifts_with_admin_constraints doctors start_weekday
          st num_weeks))
    ∧ (∀ (doctors : List Doctor) (start_weekday : Nat) (st : SchedState),
        StateWF st → StateWF (balance_tough_shifts doctors start_weekday st))
    ∧ (∀ (doctors : List Doctor) (start_weekday num_weeks : Nat),
        StateWF (generate_roster doctors start_weekday num_weeks).2) :=
  ⟨init_WF,
   fun sw st w st1 h hok => allocate_admin_WF sw st w st1 h hok,
   fun doctors sw st w h => clinical_WF doctors sw st w h,
   fun doctors sw st h => balance_WF doctors sw st h,
   generate_WF⟩

/-- A small concrete well-formed state for the C1 witness. -/
def c1_witness_state : SchedState :=
  ⟨[("A", [(0, "Rosebud Red PM")]), ("B", [(1, "Frankston Yellow AM")])], []⟩

/-- Witness for C1 at a concrete input. -/
theorem C1_witness :
    StateWF (balance_tough_shifts [] 0 c1_witness_state)
    ∧ StateWF (distribute_clinical_shifts_with_admin_constraints [] 0 c1_witness_state 1) :=
  ⟨C1_at_most_one_assignment_per_person_date.2.2.2.1 [] 0 c1_witness_state (by decide),
   C1_at_most_one_assignment_per_person_date.2.2.1 [] 0 c1_witness_state 1 (by decide)⟩

/-- Total number of assignment entries in the table. -/
def totalEntries (st : SchedState) : Nat :=
  (st.assignments.map (fun p => p.2.length)).sum

theorem len_dinsert_le {α β : Type} [DecidableEq α] (m : List (α × β)) (k : α) (v : β) :
    (dinsert m k v).length ≤ m.length + 1 := by
  induction m with
  | nil => simp [dinsert]
  | cons p rest ih =>
    obtain ⟨k', v'⟩ := p
    simp only [dinsert]
    by_cases hk : k' = k
    · simp [hk]
    · simp only [if_neg hk, List.length_cons]
      omega

theorem dadjust_sum_le (m : List (String × List (Nat × String)))
    (k : String) (f : List (Nat × String) → List (Nat × String))
    (hf : ∀ b, (f b).length ≤ b.length + 1) :
    ((dadjust m k f).map (fun p => p.2.length)).sum
      ≤ ((m.map (fun p => p.2.length)).sum) + 1 := by
  induction m with
  | nil => simp [dadjust]
  | cons p rest ih =>
    obtain ⟨k', v'⟩ := p
    simp only [dadjust]
    by_cases hk : k' = k
    · simp only [if_pos hk, List.map_cons, List.sum_cons]
      have := hf v'
      omega
    · simp only [if_neg hk, List.map_cons, List.sum_cons]
      omega

theorem assign_entries_le (start_weekday : Nat) (st : SchedState) (name : String)
    (date : Nat) (shift : Shift) :
    totalEntries (assign_shift_to_doctor start_weekday st name date shift)
      ≤ totalEntries st + 1 := by
  unfold assign_shift_to_doctor setAssign totalEntries
  exact dadjust_sum_le _ _ _ (fun b => len_dinsert_le b date (shiftNameOf shift))

theorem adminDayLoop_entries (start_weekday date : Nat) (cap : Int) :
    ∀ (shifts : List Shift) (avail : List (String × Int)) (count : Int) (st : SchedState),
      totalEntries (adminDayLoop start_weekday date cap shifts avail count st)
        ≤ totalEntries st + (cap - count).toNat := by
  intro shifts
  induction shifts with
  | nil => intro avail count st; simp [adminDayLoop]
  | cons shift rest ih =>
    intro avail count st
    rw [adminDayLoop.eq_def]
    dsimp only
    split
    · omega
    case _ hcap =>
      split
      · exact ih _ _ _
      · split
        · exact ih _ _ _
        case _ doctor_name prio availRest heq =>
          refine le_trans (ih availRest (count + 1)
            (assign_shift_to_doctor start_weekday st doctor_name date shift)) ?_
          have h2 := assign_entries_le start_weekday st doctor_name date shift
          have h3 : (cap - count).toNat = (cap - (count + 1)).toNat + 1 := by omega
          omega

/-- C8: on every date the admin allocator adds at most
`max(1, floor(totalAdminShiftsNeeded / totalDatesInHorizon))` assignment
entries, and this cap is a single global figure: the allocator's result
is the fold of the per-day step over the horizon with the one cap
computed from the initial state's total admin targets and the number of
dates, not recomputed per day. -/
theorem C8_admin_per_day_cap :
    (∀ (start_weekday : Nat) (st0 : SchedState) (num_dates : Nat) (st : SchedState)
        (date : Nat),
      totalEntries (adminDay start_weekday (admin_shifts_per_day st0 num_dates) st date)
        ≤ totalEntries st + (admin_shifts_per_day st0 num_dates).toNat
      ∧ admin_shifts_per_day st0 num_dates
          = max 1 (pyInt (fr (total_admin_needed st0) / fr num_dates)))
    ∧ (∀ (start_weekday : Nat) (st : SchedState) (num_weeks : Nat),
        (all_dates num_weeks).isEmpty = false →
        allocate_all_admin_shifts start_weekday st num_weeks
          = Except.ok ((all_dates num_weeks).foldl
              (adminDay start_weekday
                (admin_shifts_per_day st (all_dates num_weeks).length)) st)) := by
  constructor
  · intro start_weekday st0 num_dates st date
    refine ⟨?_, rfl⟩
    have := adminDayLoop_entries start_weekday date (admin_shifts_per_day st0 num_dates)
      balanced_admin_shifts (pySortDescByPriority (adminCandidates st date)) 0 st
    unfold adminDay
    simpa using this
  · intro start_weekday st num_weeks hne
    simp [allocate_all_admin_shifts, hne]

/-- Witness for C8 at a concrete input. -/
theorem C8_witness :
    allocate_all_admin_shifts 0 c1_witness_state 1
      = Except.ok ((all_dates 1).foldl
          (adminDay 0 (admin_shifts_per_day c1_witness_state (all_dates 1).length))
          c1_witness_state) :=
  C8_admin_per_day_cap.2 0 c1_witness_state 1 (by decide)

theorem foldMax_spec (key : String → Int) :
    ∀ (l : List String) (x : String),
      (l.foldl (fun best a => if key best < key a then a else best) x = x
        ∨ l.foldl (fun best a => if key best < key a then a else best) x ∈ l)
      ∧ key x ≤ key (l.foldl (fun best a => if key best < key a then a else best) x)
      ∧ ∀ y ∈ l, key y ≤ key (l.foldl (fun best a => if key best < key a then a else best) x) := by
  intro l
  induction l with
  | nil => intro x; simp
  | cons a rest ih =>
    intro x
    simp only [List.foldl_cons]
    by_cases h : key x < key a
    · simp only [if_pos h]
      obtain ⟨m1, m2, m3⟩ := ih a
      refine ⟨?_, le_trans (le_of_lt h) m2, ?_⟩
      · rcases m1 with h1 | h1
        · exact Or.inr (by simp [h1])
        · exact Or.inr (by simp [h1])
      · intro y hy
        rcases List.mem_cons.mp hy with h1 | h1
        · rw [h1]; exact m2
        · exact m3 y h1
    · simp only [if_neg h]
      obtain ⟨m1, m2, m3⟩ := ih x
      refine ⟨?_, m2, ?_⟩
      · rcases m1 with h1 | h1
        · exact Or.inl h1
        · exact Or.inr (by simp [h1])
      · intro y hy
        rcases List.mem_cons.mp hy with h1 | h1
        · rw [h1]; exact le_trans (le_of_not_lt h) m2
        · exact m3 y h1

theorem pyMaxBy_spec (key : String → Int) (l : List String) (hne : l ≠ []) :
    ∃ chosen, pyMaxBy key l = some chosen ∧ chosen ∈ l
      ∧ ∀ y ∈ l, key y ≤ key chosen := by
  match l, hne with
  | x :: xs, _ =>
    obtain ⟨m1, m2, m3⟩ := foldMax_spec key xs x
    refine ⟨_, rfl, ?_, ?_⟩
    · rcases m1 with h1 | h1
      · rw [h1]; exact List.mem_cons_self x xs
      · exact List.mem_cons_of_mem x h1
    · intro y hy
      rcases List.mem_cons.mp hy with h1 | h1
      · rw [h1]; exact m2
      · exact m3 y h1

/-- C7: for each date and each clinical slot in catalog order, the
clinical allocator either leaves the slot vacant (when no doctor is
unassigned that day, below clinical target and with enough remaining
hours) with no retry, or assigns it to an eligible doctor with the
largest `target_clinical_shifts - current_clinical_shifts` deficit
(tie-break left unspecified); and the stage is a plain fold over every
date and every catalog slot, with no day-level cap on the number of
clinical assignments. -/
theorem C7_clinical_selection :
    (∀ (doctors : List Doctor) (start_weekday date : Nat) (st : SchedState) (shift : Shift),
      (clinicalAvailable doctors st date shift = [] →
        clinicalSlotStep doctors start_weekday date st shift = st)
      ∧ (clinicalAvailable doctors st date shift ≠ [] →
          ∃ chosen, chosen ∈ clinicalAvailable doctors st date shift
            ∧ (∀ d ∈ clinicalAvailable doctors st date shift,
                clinicalDeficit st d ≤ clinicalDeficit st chosen)
            ∧ clinicalSlotStep doctors start_weekday date st shift
                = assign_shift_to_doctor start_weekday st chosen date shift))
    ∧ (∀ (doctors : List Doctor) (start_weekday : Nat) (st : SchedState) (num_weeks : Nat),
        distribute_clinical_shifts_with_admin_constraints doctors start_weekday st num_weeks
          = (all_dates num_weeks).foldl (clinicalDay doctors start_weekday) st)
    ∧ (∀ (doctors : List Doctor) (start_weekday : Nat) (st : SchedState) (date : Nat),
        clinicalDay doctors start_weekday st date
          = clinical_catalog.foldl (clinicalSlotStep doctors start_weekday date) st) := by
  refine ⟨?_, fun _ _ _ _ => rfl, fun _ _ _ _ => rfl⟩
  intro doctors start_weekday date st shift
  constructor
  · intro h
    simp [clinicalSlotStep, h, pyMaxBy]
  · intro h
    obtain ⟨chosen, hc1, hc2, hc3⟩ := pyMaxBy_spec (clinicalDeficit st)
      (clinicalAvailable doctors st date shift) h
    exact ⟨chosen, hc2, hc3, by simp [clinicalSlotStep, hc1]⟩

/-- One-doctor input for the C7 witness. -/
def c7_doctors : List Doctor := [{ name := "A", eft := fr 1 }]

/-- Witness for C7 at a concrete input: the first clinical slot of day 0
with a fresh one-doctor state has an eligible doctor, so the slot is
assigned to a doctor of maximal clinical deficit. -/
theorem C7_witness :
    ∃ chosen,
      chosen ∈ clinicalAvailable c7_doctors (init_doctor_workloads c7_doctors 1) 0
        { site := "Frankston", role := "Blue", shift_type := "AM",
          duration_hours := fr 10, is_undesirable := true }
      ∧ (∀ d ∈ clinicalAvailable c7_doctors (init_doctor_workloads c7_doctors 1) 0
            { site := "Frankston", role := "Blue", shift_type := "AM",
              duration_hours := fr 10, is_undesirable := true },
          clinicalDeficit (init_doctor_workloads c7_doctors 1) d
            ≤ clinicalDeficit (init_doctor_workloads c7_doctors 1) chosen)
      ∧ clinicalSlotStep c7_doctors 0 0 (init_doctor_workloads c7_doctors 1)
          { site := "Frankston", role := "Blue", shift_type := "AM",
            duration_hours := fr 10, is_undesirable := true }
          = assign_shift_to_doctor 0 (init_doctor_workloads c7_doctors 1) chosen 0
              { site := "Frankston", role := "Blue", shift_type := "AM",
                duration_hours := fr 10, is_undesirable := true } :=
  (C7_clinical_selection.1 c7_doctors 0 0 (init_doctor_workloads c7_doctors 1)
    { site := "Frankston", role := "Blue", shift_type := "AM",
      duration_hours := fr 10, is_undesirable := true }).2 (by decide)

theorem dlookup_dadjust {α β : Type} [DecidableEq α] (m : List (α × β)) (k : α)
    (f : β → β) (k' : α) :
    dlookup (dadjust m k f) k'
      = if k = k' then (dlookup m k').map f else dlookup m k' := by
  induction m with
  | nil => by_cases h : k = k' <;> simp [dadjust, dlookup, h]
  | cons p rest ih =>
    obtain ⟨a, b⟩ := p
    simp only [dadjust]
    by_cases hak : a = k
    · subst hak
      by_cases hk' : a = k'
      · subst hk'
        simp [dlookup]
      · simp [dlookup, hk']
    · by_cases hak' : a = k'
      · subst hak'
        have hk : ¬ k = a := fun h => hak h.symm
        simp [dlookup, hak, hk]
      · simp [dlookup, hak, hak', ih]

/-- C6: after a commit the ledger satisfies
`totalHours = maxHours - remainingHours` and `totalHours ≤ maxHours`,
provided it did before and the caller checked
`remainingHours ≥ duration`; and `_assign_shift_to_doctor` updates the
committing doctor's ledger exactly through this commit operation. -/
theorem C6_commit_preserves_hours_ledger :
    (∀ (w : Workload) (shift : Shift) (is_friday : Bool) (shift_name : String),
      w.total_hours.toRat = w.max_hours.toRat - w.remaining_hours.toRat →
      shift.duration_hours.toRat ≤ w.remaining_hours.toRat →
      (commitWorkload w shift is_friday shift_name).total_hours.toRat
          = (commitWorkload w shift is_friday shift_name).max_hours.toRat
            - (commitWorkload w shift is_friday shift_name).remaining_hours.toRat
        ∧ (commitWorkload w shift is_friday shift_name).total_hours.toRat
            ≤ (commitWorkload w shift is_friday shift_name).max_hours.toRat)
    ∧ (∀ (start_weekday : Nat) (st : SchedState) (name : String) (date : Nat) (shift : Shift),
        (dlookup st.workloads name).isSome = true →
        workloadOf (assign_shift_to_doctor start_weekday st name date shift) name
          = commitWorkload (workloadOf st name) shift (isFridayIdx start_weekday date)
              (shiftNameOf shift)) := by
  constructor
  · intro w shift is_friday shift_name h1 h2
    constructor
    · simp only [commitWorkload, Frac.toRat_add, Frac.toRat_sub]
      linarith
    · simp only [commitWorkload, Frac.toRat_add, Frac.toRat_sub]
      linarith
  · intro start_weekday st name date shift hsome
    cases hk : dlookup st.workloads name with
    | none => rw [hk] at hsome; simp at hsome
    | some w =>
      simp [assign_shift_to_doctor, setAssign, workloadOf, dlookup_dadjust, hk]

/-- Concrete ledger for the C6 witness. -/
def c6_w : Workload :=
  { Workload.empty with max_hours := fr 40, remaining_hours := fr 40 }

/-- Concrete one-doctor state for the C6 witness. -/
def c6_state : SchedState := ⟨[("A", [])], [("A", c6_w)]⟩

/-- Witness for C6 at a concrete input. -/
theorem C6_witness :
    ((commitWorkload c6_w (Shift.mk "Rosebud" "Red" "PM" (fr 10) true) true
        "Rosebud Red PM").total_hours.toRat
        = (commitWorkload c6_w (Shift.mk "Rosebud" "Red" "PM" (fr 10) true) true
            "Rosebud Red PM").max_hours.toRat
          - (commitWorkload c6_w (Shift.mk "Rosebud" "Red" "PM" (fr 10) true) true
              "Rosebud Red PM").remaining_hours.toRat
      ∧ (commitWorkload c6_w (Shift.mk "Rosebud" "Red" "PM" (fr 10) true) true
          "Rosebud Red PM").total_hours.toRat
          ≤ (commitWorkload c6_w (Shift.mk "Rosebud" "Red" "PM" (fr 10) true) true
              "Rosebud Red PM").max_hours.toRat)
    ∧ workloadOf (assign_shift_to_doctor 0 c6_state "A" 0
          (Shift.mk "Rosebud" "Red" "PM" (fr 10) true)) "A"
        = commitWorkload (workloadOf c6_state "A")
            (Shift.mk "Rosebud" "Red" "PM" (fr 10) true) (isFridayIdx 0 0)
            (shiftNameOf (Shift.mk "Rosebud" "Red" "PM" (fr 10) true)) :=
  ⟨C6_commit_preserves_hours_ledger.1 c6_w (Shift.mk "Rosebud" "Red" "PM" (fr 10) true)
      true "Rosebud Red PM"
      (by norm_num [c6_w, Workload.empty, Frac.toRat, fr])
      (by norm_num [c6_w, Workload.empty, Frac.toRat, fr]),
   C6_commit_preserves_hours_ledger.2 0 c6_state "A" 0
      (Shift.mk "Rosebud" "Red" "PM" (fr 10) true) (by decide)⟩

/-- Is person `p` assigned anything on date `d`? -/
def assignedOn (st : SchedState) (p : String) (d : Nat) : Bool :=
  (dlookup (assignedMap st p) d).isSome

/-- Person `p` holds an assignment on a date in their unavailable set. -/
def violatesUnavailable (doctors : List Doctor) (st : SchedState) (p : String)
    (d : Nat) : Bool :=
  assignedOn st p d && decide (d ∈ unavailOf doctors p)

theorem dlookup_dinsert {α β : Type} [DecidableEq α] (m : List (α × β)) (k : α) (v : β)
    (k' : α) : dlookup (dinsert m k v) k' = if k = k' then some v else dlookup m k' := by
  induction m with
  | nil => simp [dinsert, dlookup]
  | cons p rest ih =>
    obtain ⟨a, b⟩ := p
    simp only [dinsert]
    by_cases hak : a = k
    · subst hak
      by_cases h : a = k' <;> simp [dlookup, h]
    · by_cases h : a = k'
      · subst h
        have : ¬ k = a := fun hh => hak hh.symm
        simp [dlookup, hak, this]
      · simp [dlookup, hak, h, ih]

theorem mem_dlookup_isSome {α β : Type} [DecidableEq α] (m : List (α × β)) (k : α) (v : β)
    (h : (k, v) ∈ m) : (dlookup m k).isSome = true := by
  induction m with
  | nil => simp at h
  | cons p rest ih =>
    obtain ⟨a, b⟩ := p
    rcases List.mem_cons.mp h with h1 | h1
    · cases h1
      simp [dlookup]
    · by_cases hak : a = k <;> simp [dlookup, hak, ih h1]

theorem len_dinsert_isSome {α β : Type} [DecidableEq α] (m : List (α × β)) (k : α) (v : β)
    (h : (dlookup m k).isSome = true) : (dinsert m k v).length = m.length := by
  induction m with
  | nil => simp [dlookup] at h
  | cons p rest ih =>
    obtain ⟨a, b⟩ := p
    simp only [dinsert]
    by_cases hak : a = k
    · simp [hak]
    · simp only [dlookup, if_neg hak] at h
      simp [hak, ih h]

theorem dadjust_sum_eq (m : List (String × List (Nat × String))) (k : String)
    (f : List (Nat × String) → List (Nat × String))
    (hf : ∀ b, dlookup m k = some b → (f b).length = b.length) :
    ((dadjust m k f).map (fun p => p.2.length)).sum = ((m.map (fun p => p.2.length)).sum) := by
  induction m with
  | nil => simp [dadjust]
  | cons p rest ih =>
    obtain ⟨a, b⟩ := p
    simp only [dadjust]
    by_cases hak : a = k
    · have hb : dlookup ((a, b) :: rest) k = some b := by simp [dlookup, hak]
      simp [hak, hf b hb]
    · have : ∀ b1, dlookup rest k = some b1 → (f b1).length = b1.length := by
        intro b1 hb1
        exact hf b1 (by simp [dlookup, hak, hb1])
      simp [hak, ih this]

theorem totalEntries_setAssign (st : SchedState) (n : String) (dte : Nat) (s : String)
    (h : assignedOn st n dte = true) : totalEntries (setAssign st n dte s) = totalEntries st := by
  unfold totalEntries setAssign
  apply dadjust_sum_eq
  intro b hb
  apply len_dinsert_isSome
  unfold assignedOn assignedMap at h
  rw [hb] at h
  simpa using h

theorem assignedOn_setAssign (st : SchedState) (n : String) (dte : Nat) (s : String)
    (h : assignedOn st n dte = true) (p : String) (d : Nat) :
    assignedOn (setAssign st n dte s) p d = assignedOn st p d := by
  unfold assignedOn assignedMap setAssign
  simp only [dlookup_dadjust]
  by_cases hnp : n = p
  · subst hnp
    cases hm : dlookup st.assignments n with
    | none =>
      unfold assignedOn assignedMap at h
      rw [hm] at h
      simp [dlookup] at h
    | some m =>
      simp only [if_pos rfl, Option.map_some, Option.getD_some, dlookup_dinsert]
      by_cases hd : dte = d
      · subst hd
        unfold assignedOn assignedMap at h
        rw [hm] at h
        simp only [Option.getD_some] at h
        simp [dlookup_dinsert, h]
      · simp [dlookup_dinsert, hd]
  · simp [hnp]

theorem assignedOn_of_mem (st : SchedState) (p : String) (d : Nat) (v : String)
    (h : (d, v) ∈ assignedMap st p) : assignedOn st p d = true := by
  unfold assignedOn
  exact mem_dlookup_isSome _ _ _ h

theorem swap_preserves (start_weekday : Nat) (st : SchedState) (d1 : String) (dt1 : Nat)
    (d2 : String) (dt2 : Nat)
    (h1 : assignedOn st d1 dt1 = true) (h2 : assignedOn st d2 dt2 = true) :
    totalEntries (swap_assignments start_weekday st d1 dt1 d2 dt2) = totalEntries st
    ∧ ∀ p d, assignedOn (swap_assignments start_weekday st d1 dt1 d2 dt2) p d
        = assignedOn st p d := by
  unfold swap_assignments
  cases hl1 : dlookup (assignedMap st d1) dt1 with
  | none => unfold assignedOn at h1; rw [hl1] at h1; simp at h1
  | some s1 =>
    cases hl2 : dlookup (assignedMap st d2) dt2 with
    | none => unfold assignedOn at h2; rw [hl2] at h2; simp at h2
    | some s2 =>
      dsimp only
      cases hp1 : parse_shift_from_name s1 with
      | none => exact ⟨rfl, fun p d => rfl⟩
      | some o1 =>
        cases hp2 : parse_shift_from_name s2 with
        | none => exact ⟨rfl, fun p d => rfl⟩
        | some o2 =>
          dsimp only
          have tot1 := totalEntries_setAssign st d1 dt1 s2 h1
          have asg1 := assignedOn_setAssign st d1 dt1 s2 h1
          have h2a : assignedOn (setAssign st d1 dt1 s2) d2 dt2 = true := by
            rw [asg1 d2 dt2]; exact h2
          have tot2 := totalEntries_setAssign (setAssign st d1 dt1 s2) d2 dt2 s1 h2a
          have asg2 := assignedOn_setAssign (setAssign st d1 dt1 s2) d2 dt2 s1 h2a
          constructor
          · show totalEntries (setAssign (setAssign st d1 dt1 s2) d2 dt2 s1) = totalEntries st
            rw [tot2, tot1]
          · intro p d
            show assignedOn (setAssign (setAssign st d1 dt1 s2) d2 dt2 s1) p d
              = assignedOn st p d
            rw [asg2 p d, asg1 p d]

theorem trySwapInner_some (doctors : List Doctor) (start_weekday : Nat)
    (high_doctor low_doctor : String) (high_date : Nat) (high_shift_name : String) :
    ∀ (lows : List (Nat × String)) (st st1 : SchedState),
      trySwapInner doctors start_weekday high_doctor low_doctor high_date high_shift_name
        lows st = some st1 →
      ∃ low_date low_shift_name, (low_date, low_shift_name) ∈ lows
        ∧ st1 = swap_assignments start_weekday st high_doctor high_date low_doctor low_date := by
  intro lows
  induction lows with
  | nil => intro st st1 hs; simp [trySwapInner] at hs
  | cons p rest ih =>
    obtain ⟨low_date, low_shift_name⟩ := p
    intro st st1 hs
    rw [trySwapInner] at hs
    dsimp only at hs
    split at hs
    · split at hs
      · split at hs
        · cases hs
          exact ⟨low_date, low_shift_name, by simp, rfl⟩
        · obtain ⟨ld, lsn, hmem, heq⟩ := ih st st1 hs
          exact ⟨ld, lsn, by simp [hmem], heq⟩
      · obtain ⟨ld, lsn, hmem, heq⟩ := ih st st1 hs
        exact ⟨ld, lsn, by simp [hmem], heq⟩
    · obtain ⟨ld, lsn, hmem, heq⟩ := ih st st1 hs
      exact ⟨ld, lsn, by simp [hmem], heq⟩

theorem trySwapOuter_some (doctors : List Doctor) (start_weekday : Nat)
    (high_doctor low_doctor : String) (lows : List (Nat × String)) :
    ∀ (highs : List (Nat × String)) (st st1 : SchedState),
      trySwapOuter doctors start_weekday high_doctor low_doctor lows highs st = some st1 →
      ∃ high_date high_shift_name low_date low_shift_name,
        (high_date, high_shift_name) ∈ highs ∧ (low_date, low_shift_name) ∈ lows
        ∧ st1 = swap_assignments start_weekday st high_doctor high_date low_doctor low_date := by
  intro highs
  induction highs with
  | nil => intro st st1 hs; simp [trySwapOuter] at hs
  | cons p rest ih =>
    obtain ⟨high_date, high_shift_name⟩ := p
    intro st st1 hs
    rw [trySwapOuter] at hs
    cases hti : trySwapInner doctors start_weekday high_doctor low_doctor high_date
        high_shift_name lows st with
    | some st2 =>
      rw [hti] at hs
      injection hs with h12
      obtain ⟨ld, lsn, hmem, heq2⟩ := trySwapInner_some doctors start_weekday high_doctor
        low_doctor high_date high_shift_name lows st st2 hti
      exact ⟨high_date, high_shift_name, ld, lsn, by simp, hmem, by rw [← h12]; exact heq2⟩
    | none =>
      rw [hti] at hs
      obtain ⟨hd, hsn, ld, lsn, hm1, hm2, heq2⟩ := ih st st1 hs
      exact ⟨hd, hsn, ld, lsn, by simp [hm1], hm2, heq2⟩

/-- C9: every accepted rebalancing swap exchanges two existing assignment
entries in place: the total number of assignment entries is unchanged,
each person's set of assigned dates is unchanged, and therefore the set
of unavailable-date violations is exactly what it was — no new violation
is introduced. -/
theorem C9_swap_preserves_count_and_unavailability
    (doctors : List Doctor) (start_weekday : Nat) (st st1 : SchedState)
    (high_doctor low_doctor : String)
    (hs : try_swap_shifts_between_doctors doctors start_weekday st high_doctor low_doctor
      = some st1) :
    totalEntries st1 = totalEntries st
    ∧ (∀ p d, assignedOn st1 p d = assignedOn st p d)
    ∧ (∀ p d, violatesUnavailable doctors st1 p d = violatesUnavailable doctors st p d) := by
  obtain ⟨hd, hsn, ld, lsn, hm1, hm2, heq⟩ :=
    trySwapOuter_some doctors start_weekday high_doctor low_doctor
      (assignedMap st low_doctor) (assignedMap st high_doctor) st st1 hs
  have h1 := assignedOn_of_mem st high_doctor hd hsn hm1
  have h2 := assignedOn_of_mem st low_doctor ld lsn hm2
  obtain ⟨tot, asg⟩ := swap_preserves start_weekday st high_doctor hd low_doctor ld h1 h2
  subst heq
  refine ⟨tot, asg, ?_⟩
  intro p d
  unfold violatesUnavailable
  rw [asg p d]

/-- Concrete state for the C9 witness: H holds a high-penalty Rosebud PM
shift on day 0, L a zero-penalty shift on day 1. -/
def c9_state : SchedState :=
  ⟨[("H", [(0, "Rosebud Red PM")]), ("L", [(1, "Frankston Yellow AM")])], []⟩

/-- The state after the accepted swap of the C9 witness run. -/
def c9_swapped : SchedState :=
  (try_swap_shifts_between_doctors [] 0 c9_state "H" "L").getD c9_state

/-- Witness for C9 at a concrete input. -/
theorem C9_witness :
    try_swap_shifts_between_doctors [] 0 c9_state "H" "L" = some c9_swapped
    ∧ totalEntries c9_swapped = totalEntries c9_state
    ∧ (∀ p d, violatesUnavailable [] c9_swapped p d = violatesUnavailable [] c9_state p d) := by
  have h : try_swap_shifts_between_doctors [] 0 c9_state "H" "L" = some c9_swapped := rfl
  have r := C9_swap_preserves_count_and_unavailability [] 0 c9_state c9_swapped "H" "L" h
  exact ⟨h, r.1, r.2.2⟩

theorem Frac.div_num_of_pos (a b : Frac) (hb : 0 < b.num) :
    (a / b).num = a.num * b.den := by
  show (Frac.div a b).num = _
  unfold Frac.div
  rw [dif_neg (by omega : ¬ b.num = 0)]
  simp [if_neg (by omega : ¬ b.num < 0)]

theorem Frac.toRat_div_pos (a b : Frac) (hb : 0 < b.num) :
    (a / b).toRat = a.toRat / b.toRat := by
  show (Frac.div a b).toRat = _
  unfold Frac.div
  rw [dif_neg (by omega : ¬ b.num = 0)]
  simp only [if_neg (by omega : ¬ b.num < 0)]
  unfold Frac.toRat
  have had : ((a.den : Rat)) ≠ 0 := by exact_mod_cast a.den_pos.ne'
  have hbd : ((b.den : Rat)) ≠ 0 := by exact_mod_cast b.den_pos.ne'
  have hbn : ((b.num : Rat)) ≠ 0 := by exact_mod_cast (by omega : b.num ≠ 0)
  push_cast [Int.cast_natAbs]
  rw [abs_of_nonneg (show (0 : Rat) ≤ (b.num : Rat) by exact_mod_cast le_of_lt hb)]
  field_simp

theorem pyInt_eq_floor (a : Frac) (h : 0 ≤ a.num) : pyInt a = Int.floor a.toRat := by
  unfold pyInt Frac.toRat
  rw [Int.tdiv_eq_ediv h (by exact_mod_cast Nat.zero_le a.den)]
  rw [Rat.floor_intCast_div_natCast]

theorem Frac.mul_num (a b : Frac) : (a * b).num = a.num * b.num := rfl

theorem fr_num (n : Int) : (fr n).num = n := rfl

/-- The workload-target computation of spec §4.1 written over the
rationals exactly as the spec words it: `maxHours = capacityFactor × 40
× numWeeks`; `totalShiftsPossible = floor(maxHours / 9.5)`;
`targetAdmin = floor(totalShiftsPossible / 4)`, `targetClinical =
floor(totalShiftsPossible × 3/4)`; the capacity-factor minimum clamps;
and the proportional scaling (truncating to integers) when the target
hours exceed `maxHours`.  Returns (clinical, admin); second definition
for the refinement claim C4, to be compared with `init_workload_for`. -/
def specTargets (capacityFactor : Rat) (numWeeks : Nat) : Int × Int :=
  let maxHours : Rat := capacityFactor * 40 * numWeeks
  let totalShiftsPossible : Int := Int.floor (maxHours / (19/2))
  let targetAdmin : Int := Int.floor ((totalShiftsPossible : Rat) / 4)
  let targetClinical : Int := Int.floor ((totalShiftsPossible : Rat) * 3 / 4)
  let (targetClinical, targetAdmin) :=
    if 1/2 ≤ capacityFactor then (max 2 targetClinical, max 1 targetAdmin)
    else if 1/4 ≤ capacityFactor then
      let c := max 1 targetClinical
      (c, if 3 ≤ c then max 1 targetAdmin else targetAdmin)
    else (targetClinical, targetAdmin)
  let totalTargetHours : Int := targetClinical * 10 + targetAdmin * 8
  if maxHours < (totalTargetHours : Rat) then
    (Int.floor ((targetClinical : Rat) * (maxHours / (totalTargetHours : Rat))),
     Int.floor ((targetAdmin : Rat) * (maxHours / (totalTargetHours : Rat))))
  else (targetClinical, targetAdmin)

theorem key_div4 (t : Int) (ht : 0 ≤ t) :
    max 0 (pyInt (fr t / fr 4)) = Int.floor ((t : Rat) / 4) := by
  have hnum : 0 ≤ (fr t / fr 4).num := by
    rw [Frac.div_num_of_pos _ _ (by norm_num [fr] : (0:Int) < (fr 4).num)]
    simp [fr]
    omega
  rw [pyInt_eq_floor _ hnum, Frac.toRat_div_pos _ _ (by norm_num [fr]),
    Frac.toRat_fr, Frac.toRat_fr]
  have h4 : ((4:Int):Rat) = (4:Rat) := by norm_num
  rw [h4]
  have hge : 0 ≤ Int.floor ((t:Rat) / 4) := Int.floor_nonneg.mpr (by positivity)
  omega

theorem key_mul34 (t : Int) (ht : 0 ≤ t) :
    max 0 (pyInt (fr (t * 3) / fr 4)) = Int.floor ((t : Rat) * 3 / 4) := by
  have hnum : 0 ≤ (fr (t * 3) / fr 4).num := by
    rw [Frac.div_num_of_pos _ _ (by norm_num [fr] : (0:Int) < (fr 4).num)]
    simp [fr]
    omega
  rw [pyInt_eq_floor _ hnum, Frac.toRat_div_pos _ _ (by norm_num [fr]),
    Frac.toRat_fr, Frac.toRat_fr]
  have h4 : ((4:Int):Rat) = (4:Rat) := by norm_num
  have h3 : ((t * 3 : Int) : Rat) = (t : Rat) * 3 := by push_cast; ring
  rw [h4, h3]
  have hge : 0 ≤ Int.floor ((t:Rat) * 3 / 4) := Int.floor_nonneg.mpr (by positivity)
  omega

theorem key_scale (c tth : Int) (mh : Frac) (hc : 0 ≤ c) (hmh : 0 ≤ mh.num)
    (htth : 0 < tth) :
    pyInt (fr c * (mh / fr tth)) = Int.floor ((c : Rat) * (mh.toRat / (tth : Rat))) := by
  have htth_num : (0:Int) < (fr tth).num := by simpa [fr] using htth
  have hnum : 0 ≤ (fr c * (mh / fr tth)).num := by
    rw [Frac.mul_num, fr_num, Frac.div_num_of_pos _ _ htth_num]
    have : (0:Int) ≤ mh.num * ((fr tth).den : Int) := by
      simp [fr]
      omega
    exact mul_nonneg hc this
  rw [pyInt_eq_floor _ hnum, Frac.toRat_mul, Frac.toRat_div_pos _ _ htth_num,
    Frac.toRat_fr, Frac.toRat_fr]

/-- C4: the workload initialisation computes exactly the target chain
the spec describes: `maxHours = capacityFactor × 40 × numWeeks`,
`totalShiftsPossible = floor(maxHours/9.5)`, the 3:1 split with floors,
the capacity-dependent minimum clamps, and the proportional truncating
scale-down when target hours exceed `maxHours`; `remainingHours` starts
at `maxHours`. -/
theorem C4_workload_targets (eft : Frac) (num_weeks : Nat) (h : 0 ≤ eft.num) :
    ((init_workload_for eft num_weeks).target_clinical_shifts,
      (init_workload_for eft num_weeks).target_admin_shifts)
        = specTargets eft.toRat num_weeks
    ∧ (init_workload_for eft num_weeks).max_hours.toRat
        = eft.toRat * 40 * (num_weeks : Rat)
    ∧ (init_workload_for eft num_weeks).remaining_hours
        = (init_workload_for eft num_weeks).max_hours := by
  have hq : (0:Rat) ≤ eft.toRat := by
    unfold Frac.toRat
    apply div_nonneg (by exact_mod_cast h) (by positivity)
  have hmh_toRat : (eft * fr 40 * fr (num_weeks : Int)).toRat
      = eft.toRat * 40 * (num_weeks : Rat) := by
    rw [Frac.toRat_mul, Frac.toRat_mul, Frac.toRat_fr, Frac.toRat_fr]
    norm_num
  have hmh_num : 0 ≤ (eft * fr 40 * fr (num_weeks : Int)).num := by
    rw [Frac.mul_num, Frac.mul_num, fr_num, fr_num]
    have hw : (0:Int) ≤ (num_weeks : Int) := Int.ofNat_nonneg _
    have h40 : (0:Int) ≤ eft.num * 40 := by omega
    exact mul_nonneg h40 hw
  have hQ : (0:Rat) ≤ eft.toRat * 40 * (num_weeks : Rat) := by positivity
  have hdivnum : 0 ≤ ((eft * fr 40 * fr (num_weeks : Int)) / nineHalf).num := by
    rw [Frac.div_num_of_pos _ _ (by norm_num [nineHalf] : (0:Int) < nineHalf.num)]
    have hd : (0:Int) ≤ (nineHalf.den : Int) := by positivity
    exact mul_nonneg hmh_num hd
  have hnineQ : nineHalf.toRat = (19:Rat)/2 := by norm_num [nineHalf, Frac.toRat]
  have ht : pyInt ((eft * fr 40 * fr (num_weeks : Int)) / nineHalf)
      = Int.floor (eft.toRat * 40 * (num_weeks : Rat) / ((19:Rat)/2)) := by
    rw [pyInt_eq_floor _ hdivnum,
      Frac.toRat_div_pos _ _ (by norm_num [nineHalf] : (0:Int) < nineHalf.num),
      hmh_toRat, hnineQ]
  have hT0 : 0 ≤ Int.floor (eft.toRat * 40 * (num_weeks : Rat) / ((19:Rat)/2)) :=
    Int.floor_nonneg.mpr (by positivity)
  have hhalf_iff : (halfF ≤ eft) ↔ ((1:Rat)/2 ≤ eft.toRat) := by
    have h2 : halfF.toRat = (1:Rat)/2 := by norm_num [halfF, Frac.toRat]
    rw [Frac.toRat_le, h2]
  have hquarter_iff : (quarterF ≤ eft) ↔ ((1:Rat)/4 ≤ eft.toRat) := by
    have h2 : quarterF.toRat = (1:Rat)/4 := by norm_num [quarterF, Frac.toRat]
    rw [Frac.toRat_le, h2]
  have hlt_iff : ∀ tth : Int, ((eft * fr 40 * fr (num_weeks : Int)) < fr tth)
      ↔ (eft.toRat * 40 * (num_weeks : Rat) < (tth : Rat)) := by
    intro tth
    rw [Frac.toRat_lt, hmh_toRat, Frac.toRat_fr]
  unfold init_workload_for specTargets
  dsimp only
  rw [ht, key_div4 _ hT0, key_mul34 _ hT0]
  set T := Int.floor (eft.toRat * 40 * (num_weeks : Rat) / ((19:Rat)/2)) with hTdef
  set A0 := Int.floor ((T : Rat) / 4) with hA0def
  set C0 := Int.floor ((T : Rat) * 3 / 4) with hC0def
  have hA0ge : 0 ≤ A0 := by
    rw [hA0def]
    exact Int.floor_nonneg.mpr (div_nonneg (by exact_mod_cast hT0) (by norm_num))
  have hC0ge : 0 ≤ C0 := by
    rw [hC0def]
    exact Int.floor_nonneg.mpr
      (div_nonneg (mul_nonneg (by exact_mod_cast hT0) (by norm_num)) (by norm_num))
  by_cases hcap : (1:Rat)/2 ≤ eft.toRat
  · rw [if_pos (hhalf_iff.mpr hcap), if_pos hcap]
    dsimp only
    by_cases hsc : eft.toRat * 40 * (num_weeks : Rat)
        < ((max 2 C0 * 10 + max 1 A0 * 8 : Int) : Rat)
    · rw [if_pos ((hlt_iff _).mpr hsc), if_pos hsc]
      have htth_pos : (0:Int) < max 2 C0 * 10 + max 1 A0 * 8 := by
        exact_mod_cast lt_of_le_of_lt hQ hsc
      have hcC : (0:Int) ≤ max 2 C0 := le_trans (by norm_num) (le_max_left 2 C0)
      have hcA : (0:Int) ≤ max 1 A0 := le_trans (by norm_num) (le_max_left 1 A0)
      rw [key_scale _ _ _ hcC hmh_num htth_pos, key_scale _ _ _ hcA hmh_num htth_pos,
        hmh_toRat]
      exact ⟨rfl, rfl, rfl⟩
    · rw [if_neg (fun hc => hsc ((hlt_iff _).mp hc)), if_neg hsc]
      exact ⟨rfl, hmh_toRat, rfl⟩
  · rw [if_neg (fun hc => hcap (hhalf_iff.mp hc)), if_neg hcap]
    by_cases hcap4 : (1:Rat)/4 ≤ eft.toRat
    · rw [if_pos (hquarter_iff.mpr hcap4), if_pos hcap4]
      dsimp only
      by_cases hsc : eft.toRat * 40 * (num_weeks : Rat)
          < ((max 1 C0 * 10 + (if 3 ≤ max 1 C0 then max 1 A0 else A0) * 8 : Int) : Rat)
      · rw [if_pos ((hlt_iff _).mpr hsc), if_pos hsc]
        have htth_pos : (0:Int)
            < max 1 C0 * 10 + (if 3 ≤ max 1 C0 then max 1 A0 else A0) * 8 := by
          exact_mod_cast lt_of_le_of_lt hQ hsc
        have hcC : (0:Int) ≤ max 1 C0 := le_trans (by norm_num) (le_max_left 1 C0)
        have hcA : (0:Int) ≤ (if 3 ≤ max 1 C0 then max 1 A0 else A0) := by
          split
          · exact le_trans (by norm_num) (le_max_left 1 A0)
          · exact hA0ge
        rw [key_scale _ _ _ hcC hmh_num htth_pos, key_scale _ _ _ hcA hmh_num htth_pos,
          hmh_toRat]
        exact ⟨rfl, rfl, rfl⟩
      · rw [if_neg (fun hc => hsc ((hlt_iff _).mp hc)), if_neg hsc]
        exact ⟨rfl, hmh_toRat, rfl⟩
    · rw [if_neg (fun hc => hcap4 (hquarter_iff.mp hc)), if_neg hcap4]
      dsimp only
      by_cases hsc : eft.toRat * 40 * (num_weeks : Rat) < ((C0 * 10 + A0 * 8 : Int) : Rat)
      · rw [if_pos ((hlt_iff _).mpr hsc), if_pos hsc]
        have htth_pos : (0:Int) < C0 * 10 + A0 * 8 := by
          exact_mod_cast lt_of_le_of_lt hQ hsc
        rw [key_scale _ _ _ hC0ge hmh_num htth_pos, key_scale _ _ _ hA0ge hmh_num htth_pos,
          hmh_toRat]
        exact ⟨rfl, rfl, rfl⟩
      · rw [if_neg (fun hc => hsc ((hlt_iff _).mp hc)), if_neg hsc]
        exact ⟨rfl, hmh_toRat, rfl⟩

/-- Witness for C4 at a concrete input (capacity factor 0.5, 2 weeks). -/
theorem C4_witness :
    ((init_workload_for halfF 2).target_clinical_shifts,
      (init_workload_for halfF 2).target_admin_shifts) = specTargets halfF.toRat 2 :=
  (C4_workload_targets halfF 2 (by decide)).1
